import Mathlib

/-!
Shallow embedding of the in-memory to-do task service
(src/backend_api/src/api/main.py) and proofs about its behaviour.

The service keeps a process-local dict from integer id to task
(_TASKS) and a counter (_NEXT_ID).  We model the dict as an
insertion-ordered association list with unique keys, HTTP responses as
an inductive type, and each route handler as a pure function from a
store and a request to a response paired with the next store.

Request deserialization (pydantic) happens before the handler runs, so
the model performs the field validation the pydantic models declare
(min_length=1 on title, ge=1 on ids, enum status) before the handler
body, answering 422 on failure.  An exception escaping the handler
(pydantic ValidationError raised by the Task constructor inside the
handler) is modelled as the internalError response.
-/

namespace TodoApi

/-- TaskStatus enum from main.py: allowed status values for a task. -/
inductive TaskStatus where
  | pending
  | completed
deriving DecidableEq, Repr

/-- Task response model: id (integer, ge 1), title, description, status. -/
structure Task where
  id : Nat
  title : String
  description : String
  status : TaskStatus
deriving DecidableEq, Repr

/-- The _TASKS dict, as an insertion-ordered association list.
Python dict keys are unique; all reachable stores keep keys unique
(proved below), so this list faithfully represents the dict. -/
abbrev TaskMap := List (Nat × Task)

/-- Python d.get(k): the value at the first (only) occurrence of key k. -/
def dictGet (k : Nat) : TaskMap → Option Task
  | [] => none
  | (k2, t) :: m => if k2 = k then some t else dictGet k m

/-- Python d[k] = v: replace in place when the key exists, else append
(dict insertion order). -/
def dictSet (k : Nat) (v : Task) : TaskMap → TaskMap
  | [] => [(k, v)]
  | (k2, t) :: m => if k2 = k then (k, v) :: m else (k2, t) :: dictSet k v m

/-- Python del d[k]: drop the (unique) entry with key k. -/
def dictDel (k : Nat) : TaskMap → TaskMap
  | [] => []
  | (k2, t) :: m => if k2 = k then m else (k2, t) :: dictDel k m

/-- The mutable module state: _TASKS and _NEXT_ID (initially 1). -/
structure Store where
  tasks : TaskMap
  next_id : Nat
deriving DecidableEq, Repr

/-- The state at process start: empty dict, _NEXT_ID = 1. -/
def Store.empty : Store := ⟨[], 1⟩

/-- HTTP-level outcome of one request. -/
inductive Resp where
  | ok (t : Task)              -- 200 with a task body
  | okList (ts : List Task)    -- 200 with a task list body
  | created (t : Task)         -- 201
  | noContent                  -- 204
  | badRequest                 -- 400 raised by the handler
  | notFound                   -- 404 raised by the handler
  | unprocessable              -- 422 from request deserialization
  | internalError              -- unhandled exception inside the handler
deriving DecidableEq, Repr

/-- Python str.strip() with no argument: drop leading and trailing
whitespace characters. -/
def strip (s : String) : String :=
  String.mk (((s.data.dropWhile Char.isWhitespace).reverse.dropWhile
    Char.isWhitespace).reverse)

/-- Pydantic construction of a Task (the Task(...) calls in the
handlers): every field must be present (not None), id satisfies ge=1
and title min_length=1; otherwise a ValidationError is raised. -/
def mkTask (id : Nat) (title description : Option String)
    (status : Option TaskStatus) : Option Task :=
  match title, description, status with
  | some ti, some d, some st =>
      if 1 ≤ id ∧ ti ≠ "" then some ⟨id, ti, d, st⟩ else none
  | _, _, _ => none

/-- Handler for POST /tasks.  Pydantic TaskCreate first rejects an
empty title (min_length=1) with 422; the handler then rejects a
whitespace-only title with 400, builds the task at id _NEXT_ID, stores
it and increments the counter. -/
def create_task (s : Store) (title description : String)
    (status : TaskStatus) : Resp × Store :=
  if title = "" then (.unprocessable, s)
  else if strip title = "" then (.badRequest, s)
  else
    match mkTask s.next_id (some title) (some description) (some status) with
    | some task =>
        (.created task, ⟨dictSet s.next_id task s.tasks, s.next_id + 1⟩)
    | none => (.internalError, s)

/-- Handler for GET /tasks/\x7bid\x7d.  Path(ge=1) rejects a non-positive id
with 422; _get_task_or_404 answers 404 when the id is absent. -/
def get_task (s : Store) (id : Nat) : Resp × Store :=
  if id < 1 then (.unprocessable, s)
  else
    match dictGet id s.tasks with
    | some t => (.ok t, s)
    | none => (.notFound, s)

/-- Handler for PUT /tasks/\x7bid\x7d (update_task in main.py).  Pydantic
TaskUpdate rejects an empty title with 422 and Path(ge=1) a
non-positive id; the handler then checks presence (404), rejects a
whitespace-only title (400) and overwrites the entry with a task
carrying the path id. -/
def update_task (s : Store) (id : Nat) (title description : String)
    (status : TaskStatus) : Resp × Store :=
  if title = "" then (.unprocessable, s)
  else if id < 1 then (.unprocessable, s)
  else
    match dictGet id s.tasks with
    | none => (.notFound, s)
    | some _ =>
        if strip title = "" then (.badRequest, s)
        else
          match mkTask id (some title) (some description) (some status) with
          | some task => (.ok task, ⟨dictSet id task s.tasks, s.next_id⟩)
          | none => (.internalError, s)

/-- One field of a PATCH body: absent from the JSON object, present
with value null, or present with a value.  model_dump(exclude_unset=True)
keeps exactly the present fields, null included. -/
inductive PatchField (α : Type) where
  | unset
  | null
  | set (a : α)
deriving DecidableEq, Repr

/-- TaskPatch request model: every field optional. -/
structure TaskPatch where
  title : PatchField String
  description : PatchField String
  status : PatchField TaskStatus
deriving DecidableEq, Repr

/-- Pydantic validation of a TaskPatch body: min_length=1 applies to a
present non-null title; null and absent fields pass. -/
def TaskPatch.valid (p : TaskPatch) : Bool :=
  match p.title with
  | .set ti => decide (ti ≠ "")
  | _ => true

/-- The dict merge new_data.update(patch_data) on one field: an absent
field keeps the stored value, a present field (null included)
overwrites it. -/
def PatchField.merge (old : α) : PatchField α → Option α
  | .unset => some old
  | .null => none
  | .set a => some a

/-- The value a field of the merged patch result carries: the supplied
value when the field is present, the stored one when it is absent. -/
def PatchField.getD (old : α) : PatchField α → α
  | .unset => old
  | .null => old
  | .set a => a

/-- Handler for PATCH /tasks/\x7bid\x7d (patch_task in main.py).  After
deserialization (422) and Path(ge=1), the handler checks presence
(404), rejects a present non-null whitespace-only title (400), merges
the present fields over the stored task and rebuilds the Task; a null
merged into a required field makes the Task constructor raise an
unhandled ValidationError (internalError), leaving the store
unchanged. -/
def patch_task (s : Store) (id : Nat) (p : TaskPatch) : Resp × Store :=
  if ¬ p.valid then (.unprocessable, s)
  else if id < 1 then (.unprocessable, s)
  else
    match dictGet id s.tasks with
    | none => (.notFound, s)
    | some existing =>
        if (match p.title with | .set ti => decide (strip ti = "") | _ => false) then
          (.badRequest, s)
        else
          match mkTask existing.id (p.title.merge existing.title)
              (p.description.merge existing.description)
              (p.status.merge existing.status) with
          | some updated => (.ok updated, ⟨dictSet id updated s.tasks, s.next_id⟩)
          | none => (.internalError, s)

/-- Handler for DELETE /tasks/\x7bid\x7d.  Path(ge=1) then 404 check, then
del _TASKS[id]. -/
def delete_task (s : Store) (id : Nat) : Resp × Store :=
  if id < 1 then (.unprocessable, s)
  else
    match dictGet id s.tasks with
    | none => (.notFound, s)
    | some _ => (.noContent, ⟨dictDel id s.tasks, s.next_id⟩)

/-- Ordering used by list_tasks: sorted(..., key=lambda t: t.id). -/
abbrev taskLe (a b : Task) : Prop := a.id ≤ b.id

instance : DecidableRel taskLe := fun a b => Nat.decLe a.id b.id

instance : IsTotal Task taskLe := ⟨fun a b => Nat.le_total a.id b.id⟩

instance : IsTrans Task taskLe := ⟨fun _ _ _ hab hbc => Nat.le_trans hab hbc⟩

/-- sorted(values, key=id): a permutation of the values sorted by
ascending id (unique ids make this sorted permutation unique, so the
choice of sorting algorithm is immaterial). -/
def sortById (l : List Task) : List Task := l.insertionSort taskLe

/-- Handler for GET /tasks: all stored tasks ordered by ascending id. -/
def list_tasks (s : Store) : Resp × Store :=
  (.okList (sortById (s.tasks.map Prod.snd)), s)

/-- One HTTP request against the task routes. -/
inductive Op where
  | create (title description : String) (status : TaskStatus)
  | get (id : Nat)
  | put (id : Nat) (title description : String) (status : TaskStatus)
  | patch (id : Nat) (p : TaskPatch)
  | delete (id : Nat)
  | list
deriving DecidableEq, Repr

/-- Dispatch one request to its handler. -/
def step (s : Store) : Op → Resp × Store
  | .create ti d st => create_task s ti d st
  | .get id => get_task s id
  | .put id ti d st => update_task s id ti d st
  | .patch id p => patch_task s id p
  | .delete id => delete_task s id
  | .list => list_tasks s

/-- The store after a sequence of requests. -/
def run (s : Store) : List Op → Store
  | [] => s
  | op :: ops => run (step s op).2 ops

/-- The ids returned by the successful creates of a request sequence,
in order. -/
def createdIds (s : Store) : List Op → List Nat
  | [] => []
  | op :: ops =>
      match step s op with
      | (Resp.created t, s2) => t.id :: createdIds s2 ops
      | (_, s2) => createdIds s2 ops

/-- Responses the service reports as request failures: 400, 404, 422. -/
def isClientError : Resp → Bool
  | .badRequest => true
  | .notFound => true
  | .unprocessable => true
  | _ => false

/-- Invariant of every reachable store: the counter is at least 1,
dict keys are strictly increasing in insertion order (hence unique),
and every entry has its key below the counter, key at least 1, task id
equal to its key, and a title that is nonempty after stripping. -/
def StoreInv (s : Store) : Prop :=
  1 ≤ s.next_id ∧
  (s.tasks.map Prod.fst).Pairwise (· < ·) ∧
  ∀ q ∈ s.tasks, q.1 < s.next_id ∧ 1 ≤ q.1 ∧ q.2.id = q.1 ∧ strip q.2.title ≠ ""

/-! Lemmas about the dict model. -/

theorem dictGet_mem {k : Nat} {t : Task} :
    ∀ {m : TaskMap}, dictGet k m = some t → (k, t) ∈ m := by
  intro m
  induction m with
  | nil => intro h; simp [dictGet] at h
  | cons q m ih =>
      obtain ⟨k2, u⟩ := q
      intro h
      simp only [dictGet] at h
      split at h
      · next heq =>
          cases h
          subst heq
          exact List.mem_cons_self _ _
      · exact List.mem_cons_of_mem _ (ih h)

theorem dictGet_eq_none {k : Nat} :
    ∀ {m : TaskMap}, dictGet k m = none ↔ ∀ q ∈ m, q.1 ≠ k := by
  intro m
  induction m with
  | nil => simp [dictGet]
  | cons q m ih =>
      obtain ⟨k2, u⟩ := q
      simp only [dictGet, List.mem_cons]
      constructor
      · intro h
        split at h
        · cases h
        · next hne =>
            intro q hq
            rcases hq with hq | hq
            · subst hq; exact hne
            · exact ih.mp h q hq
      · intro h
        split
        · next heq => exact absurd heq (h (k2, u) (Or.inl rfl))
        · exact ih.mpr fun q hq => h q (Or.inr hq)

theorem dictGet_dictSet_self (k : Nat) (v : Task) :
    ∀ (m : TaskMap), dictGet k (dictSet k v m) = some v := by
  intro m
  induction m with
  | nil => simp [dictGet, dictSet]
  | cons q m ih =>
      obtain ⟨k2, u⟩ := q
      simp only [dictSet]
      split
      · simp [dictGet]
      · next hne => simp only [dictGet, if_neg hne]; exact ih

theorem dictSet_mem {k : Nat} {v : Task} :
    ∀ {m : TaskMap} {q : Nat × Task}, q ∈ dictSet k v m → q = (k, v) ∨ q ∈ m := by
  intro m
  induction m with
  | nil => intro q hq; simp [dictSet] at hq; exact Or.inl hq
  | cons p m ih =>
      obtain ⟨k2, u⟩ := p
      intro q hq
      simp only [dictSet] at hq
      split at hq
      · rcases List.mem_cons.mp hq with h | h
        · exact Or.inl h
        · exact Or.inr (List.mem_cons_of_mem _ h)
      · rcases List.mem_cons.mp hq with h | h
        · exact Or.inr (h ▸ List.mem_cons_self _ _)
        · rcases ih h with h2 | h2
          · exact Or.inl h2
          · exact Or.inr (List.mem_cons_of_mem _ h2)

theorem map_fst_dictSet_of_get {k : Nat} {t v : Task} :
    ∀ {m : TaskMap}, dictGet k m = some t →
      (dictSet k v m).map Prod.fst = m.map Prod.fst := by
  intro m
  induction m with
  | nil => intro h; simp [dictGet] at h
  | cons q m ih =>
      obtain ⟨k2, u⟩ := q
      intro h
      simp only [dictGet] at h
      simp only [dictSet]
      split at h
      · next heq => simp [if_pos heq, heq]
      · next hne => simp only [if_neg hne, List.map_cons, ih h]

theorem dictSet_of_forall_ne {k : Nat} {v : Task} :
    ∀ {m : TaskMap}, (∀ q ∈ m, q.1 ≠ k) → dictSet k v m = m ++ [(k, v)] := by
  intro m
  induction m with
  | nil => intro _; rfl
  | cons q m ih =>
      obtain ⟨k2, u⟩ := q
      intro h
      have hne : k2 ≠ k := h (k2, u) (List.mem_cons_self _ _)
      simp only [dictSet, if_neg hne, List.cons_append, List.cons.injEq, true_and]
      exact ih fun q hq => h q (List.mem_cons_of_mem _ hq)

theorem dictDel_sublist (k : Nat) : ∀ (m : TaskMap), List.Sublist (dictDel k m) m := by
  intro m
  induction m with
  | nil => exact List.Sublist.refl _
  | cons q m ih =>
      obtain ⟨k2, u⟩ := q
      simp only [dictDel]
      split
      · exact List.sublist_cons_of_sublist _ (List.Sublist.refl m)
      · exact List.Sublist.cons₂ _ ih

theorem dictGet_dictDel_self {k : Nat} :
    ∀ {m : TaskMap}, (m.map Prod.fst).Nodup → dictGet k (dictDel k m) = none := by
  intro m
  induction m with
  | nil => intro _; rfl
  | cons q m ih =>
      obtain ⟨k2, u⟩ := q
      intro hnd
      simp only [List.map_cons, List.nodup_cons] at hnd
      obtain ⟨hk2, hnd2⟩ := hnd
      simp only [dictDel]
      split
      · next heq =>
          subst heq
          exact dictGet_eq_none.mpr fun q hq h => hk2 (h ▸ List.mem_map_of_mem Prod.fst hq)
      · next hne =>
          simp only [dictGet, if_neg hne]
          exact ih hnd2

/-- A title that strips to nonempty is itself nonempty. -/
theorem ne_empty_of_strip_ne {s : String} (h : strip s ≠ "") : s ≠ "" := by
  intro hs
  exact h (by rw [hs]; rfl)

/-! Characterizations of the handlers. -/

theorem create_task_success {s : Store} {title d : String} {st : TaskStatus}
    (h1 : strip title ≠ "") (h2 : 1 ≤ s.next_id) :
    create_task s title d st =
      (.created ⟨s.next_id, title, d, st⟩,
       ⟨dictSet s.next_id ⟨s.next_id, title, d, st⟩ s.tasks, s.next_id + 1⟩) := by
  have ht : title ≠ "" := ne_empty_of_strip_ne h1
  simp [create_task, ht, h1, mkTask, h2]

theorem create_task_created {s s2 : Store} {title d : String} {st : TaskStatus}
    {t : Task} (h : create_task s title d st = (.created t, s2)) :
    t.id = s.next_id ∧ s2.next_id = s.next_id + 1 := by
  unfold create_task at h
  split at h
  · cases h
  · split at h
    · cases h
    · split at h
      · next task heq =>
          cases h
          simp only [mkTask] at heq
          split at heq
          · cases heq
            exact ⟨rfl, rfl⟩
          · cases heq
      · cases h

theorem step_created {s s2 : Store} {op : Op} {t : Task}
    (h : step s op = (.created t, s2)) :
    t.id = s.next_id ∧ s2.next_id = s.next_id + 1 := by
  cases op with
  | create title d st => exact create_task_created h
  | get id =>
      simp only [step] at h
      unfold get_task at h
      split at h
      · cases h
      · split at h <;> cases h
  | put id title d st =>
      simp only [step] at h
      unfold update_task at h
      split at h
      · cases h
      · split at h
        · cases h
        · split at h
          · cases h
          · split at h
            · cases h
            · split at h <;> cases h
  | patch id p =>
      simp only [step] at h
      unfold patch_task at h
      split at h
      · cases h
      · split at h
        · cases h
        · split at h
          · cases h
          · split at h
            · cases h
            · split at h <;> cases h
  | delete id =>
      simp only [step] at h
      unfold delete_task at h
      split at h
      · cases h
      · split at h <;> cases h
  | list => cases h

theorem step_next_id_le (s : Store) (op : Op) :
    s.next_id ≤ (step s op).2.next_id := by
  rcases h : step s op with ⟨r, s2⟩
  cases op with
  | create title d st =>
      simp only [step] at h
      unfold create_task at h
      split at h
      · cases h; exact Nat.le_refl _
      · split at h
        · cases h; exact Nat.le_refl _
        · split at h
          · cases h; exact Nat.le_succ _
          · cases h; exact Nat.le_refl _
  | get id =>
      simp only [step] at h
      unfold get_task at h
      split at h
      · cases h; exact Nat.le_refl _
      · split at h <;> (cases h; exact Nat.le_refl _)
  | put id title d st =>
      simp only [step] at h
      unfold update_task at h
      split at h
      · cases h; exact Nat.le_refl _
      · split at h
        · cases h; exact Nat.le_refl _
        · split at h
          · cases h; exact Nat.le_refl _
          · split at h
            · cases h; exact Nat.le_refl _
            · split at h <;> (cases h; exact Nat.le_refl _)
  | patch id p =>
      simp only [step] at h
      unfold patch_task at h
      split at h
      · cases h; exact Nat.le_refl _
      · split at h
        · cases h; exact Nat.le_refl _
        · split at h
          · cases h; exact Nat.le_refl _
          · split at h
            · cases h; exact Nat.le_refl _
            · split at h <;> (cases h; exact Nat.le_refl _)
  | delete id =>
      simp only [step] at h
      unfold delete_task at h
      split at h
      · cases h; exact Nat.le_refl _
      · split at h <;> (cases h; exact Nat.le_refl _)
  | list => cases h; exact Nat.le_refl _

theorem createdIds_lower_bound {s : Store} {ops : List Op} :
    ∀ i ∈ createdIds s ops, s.next_id ≤ i := by
  induction ops generalizing s with
  | nil => intro i hi; simp [createdIds] at hi
  | cons op ops ih =>
      intro i hi
      have hmono := step_next_id_le s op
      rcases h : step s op with ⟨r, s2⟩
      rw [h] at hmono
      simp only [createdIds, h] at hi
      cases r with
      | created t =>
          rcases List.mem_cons.mp hi with hi | hi
          · subst hi
            exact Nat.le_of_eq (step_created h).1.symm
          · exact Nat.le_trans hmono (ih i hi)
      | ok t => exact Nat.le_trans hmono (ih i hi)
      | okList ts => exact Nat.le_trans hmono (ih i hi)
      | noContent => exact Nat.le_trans hmono (ih i hi)
      | badRequest => exact Nat.le_trans hmono (ih i hi)
      | notFound => exact Nat.le_trans hmono (ih i hi)
      | unprocessable => exact Nat.le_trans hmono (ih i hi)
      | internalError => exact Nat.le_trans hmono (ih i hi)

theorem createdIds_pairwise (s : Store) :
    ∀ (ops : List Op), (createdIds s ops).Pairwise (· < ·) := by
  intro ops
  induction ops generalizing s with
  | nil => simp [createdIds]
  | cons op ops ih =>
      rcases h : step s op with ⟨r, s2⟩
      simp only [createdIds, h]
      cases r with
      | created t =>
          refine List.Pairwise.cons ?_ (ih s2)
          intro j hj
          have hlb := createdIds_lower_bound j hj
          obtain ⟨hid, hnext⟩ := step_created h
          omega
      | ok t => exact ih s2
      | okList ts => exact ih s2
      | noContent => exact ih s2
      | badRequest => exact ih s2
      | notFound => exact ih s2
      | unprocessable => exact ih s2
      | internalError => exact ih s2

/-! Inversion lemmas for pydantic Task construction and patch merge. -/

theorem mkTask_some {id : Nat} {t? d? : Option String} {st? : Option TaskStatus}
    {u : Task} (h : mkTask id t? d? st? = some u) :
    ∃ ti d st, t? = some ti ∧ d? = some d ∧ st? = some st ∧
      1 ≤ id ∧ ti ≠ "" ∧ u = ⟨id, ti, d, st⟩ := by
  rcases t? with _ | ti <;> rcases d? with _ | d <;> rcases st? with _ | st <;>
    simp only [mkTask] at h
  all_goals try cases h
  split at h
  · next hc =>
      cases h
      exact ⟨ti, d, st, rfl, rfl, rfl, hc.1, hc.2, rfl⟩
  · cases h

theorem PatchField.merge_some {α : Type} {old a : α} {f : PatchField α}
    (h : f.merge old = some a) : (f = .unset ∧ a = old) ∨ f = .set a := by
  cases f with
  | unset =>
      simp only [PatchField.merge] at h
      cases h
      exact Or.inl ⟨rfl, rfl⟩
  | null => cases h
  | set b =>
      simp only [PatchField.merge] at h
      cases h
      exact Or.inr rfl

/-! Preservation of the invariant by each handler. -/

theorem inv_create {s : Store} (hs : StoreInv s) (title d : String)
    (st : TaskStatus) : StoreInv (create_task s title d st).2 := by
  obtain ⟨hn, hp, he⟩ := hs
  unfold create_task
  split
  · exact ⟨hn, hp, he⟩
  · split
    · exact ⟨hn, hp, he⟩
    · split
      · next task heq =>
          obtain ⟨ti, d2, st2, hti, hd2, hst2, hge, hne, hu⟩ := mkTask_some heq
          cases hti; cases hd2; cases hst2
          next hstrip _ =>
          have hfresh : ∀ q ∈ s.tasks, q.1 ≠ s.next_id :=
            fun q hq => Nat.ne_of_lt (he q hq).1
          refine ⟨Nat.le_succ_of_le hn, ?_, ?_⟩
          · rw [dictSet_of_forall_ne hfresh, List.map_append]
            rw [List.pairwise_append]
            refine ⟨hp, List.pairwise_singleton _ _, ?_⟩
            intro a ha b hb
            simp only [List.map_cons, List.map_nil, List.mem_singleton] at hb
            subst hb
            obtain ⟨q, hq, hqa⟩ := List.mem_map.mp ha
            exact hqa ▸ (he q hq).1
          · intro q hq
            rw [dictSet_of_forall_ne hfresh] at hq
            rcases List.mem_append.mp hq with hq | hq
            · obtain ⟨h1, h2, h3, h4⟩ := he q hq
              exact ⟨Nat.lt_succ_of_lt h1, h2, h3, h4⟩
            · simp only [List.mem_singleton] at hq
              subst hq
              subst hu
              exact ⟨Nat.lt_succ_self _, hge, rfl, hstrip⟩
      · exact ⟨hn, hp, he⟩

theorem inv_update {s : Store} (hs : StoreInv s) (id : Nat) (title d : String)
    (st : TaskStatus) : StoreInv (update_task s id title d st).2 := by
  obtain ⟨hn, hp, he⟩ := hs
  unfold update_task
  split
  · exact ⟨hn, hp, he⟩
  · split
    · exact ⟨hn, hp, he⟩
    · split
      · exact ⟨hn, hp, he⟩
      · next existing hget =>
          split
          · exact ⟨hn, hp, he⟩
          · split
            · next task heq =>
                next hstrip _ =>
                obtain ⟨ti, d2, st2, hti, hd2, hst2, hge, hne, hu⟩ := mkTask_some heq
                cases hti; cases hd2; cases hst2
                have hkey : (id, existing) ∈ s.tasks := dictGet_mem hget
                refine ⟨hn, ?_, ?_⟩
                · rw [map_fst_dictSet_of_get hget]
                  exact hp
                · intro q hq
                  rcases dictSet_mem hq with hq2 | hq2
                  · subst hq2
                    subst hu
                    exact ⟨(he _ hkey).1, hge, rfl, hstrip⟩
                  · exact he q hq2
            · exact ⟨hn, hp, he⟩

theorem inv_patch {s : Store} (hs : StoreInv s) (id : Nat) (p : TaskPatch) :
    StoreInv (patch_task s id p).2 := by
  obtain ⟨hn, hp, he⟩ := hs
  unfold patch_task
  split
  · exact ⟨hn, hp, he⟩
  · split
    · exact ⟨hn, hp, he⟩
    · split
      · exact ⟨hn, hp, he⟩
      · next existing hget =>
          split
          · exact ⟨hn, hp, he⟩
          · next hguard =>
            split
            · next updated heq =>
                obtain ⟨ti, d2, st2, hti, hd2, hst2, hge, hne, hu⟩ := mkTask_some heq
                have hkey : (id, existing) ∈ s.tasks := dictGet_mem hget
                obtain ⟨hlt, hone, hident, hstript⟩ := he _ hkey
                have hstrip2 : strip ti ≠ "" := by
                  rcases PatchField.merge_some hti with ⟨_, hti2⟩ | hti2
                  · exact hti2 ▸ hstript
                  · intro hcon
                    exact hguard (by simp [hti2, hcon])
                refine ⟨hn, ?_, ?_⟩
                · rw [map_fst_dictSet_of_get hget]
                  exact hp
                · intro q hq
                  rcases dictSet_mem hq with hq2 | hq2
                  · subst hq2
                    subst hu
                    exact ⟨hident ▸ hlt, hident ▸ hone, hident, hstrip2⟩
                  · exact he q hq2
            · exact ⟨hn, hp, he⟩

theorem inv_delete {s : Store} (hs : StoreInv s) (id : Nat) :
    StoreInv (delete_task s id).2 := by
  obtain ⟨hn, hp, he⟩ := hs
  unfold delete_task
  split
  · exact ⟨hn, hp, he⟩
  · split
    · exact ⟨hn, hp, he⟩
    · have hsub := dictDel_sublist id s.tasks
      refine ⟨hn, ?_, ?_⟩
      · exact List.Pairwise.sublist (hsub.map Prod.fst) hp
      · intro q hq
        exact he q (hsub.subset hq)

theorem inv_step {s : Store} (hs : StoreInv s) (op : Op) :
    StoreInv (step s op).2 := by
  cases op with
  | create title d st => exact inv_create hs title d st
  | get id =>
      obtain ⟨hn, hp, he⟩ := hs
      simp only [step]
      unfold get_task
      split
      · exact ⟨hn, hp, he⟩
      · split <;> exact ⟨hn, hp, he⟩
  | put id title d st => exact inv_update hs id title d st
  | patch id p => exact inv_patch hs id p
  | delete id => exact inv_delete hs id
  | list => exact hs

theorem inv_run {s : Store} (hs : StoreInv s) :
    ∀ (ops : List Op), StoreInv (run s ops) := by
  intro ops
  induction ops generalizing s with
  | nil => exact hs
  | cons op ops ih => exact ih (inv_step hs op)

theorem inv_empty : StoreInv Store.empty := by
  refine ⟨Nat.le_refl 1, List.Pairwise.nil, ?_⟩
  intro q hq
  cases hq

/-- A successful patch: when the id is present, every present field is
a non-null value and a present title strips to nonempty, the handler
answers 200 with the merged task and stores it at the same key. -/
theorem patch_task_success {s : Store} {id : Nat} {t : Task}
    {pt pd : PatchField String} {pst : PatchField TaskStatus}
    (hget : dictGet id s.tasks = some t) (hid : 1 ≤ id)
    (htid : 1 ≤ t.id) (htitle : t.title ≠ "")
    (hpt : pt ≠ .null) (hpd : pd ≠ .null) (hpst : pst ≠ .null)
    (hptw : ∀ w, pt = .set w → strip w ≠ "") :
    patch_task s id ⟨pt, pd, pst⟩ =
      (Resp.ok ⟨t.id, pt.getD t.title, pd.getD t.description, pst.getD t.status⟩,
       ⟨dictSet id ⟨t.id, pt.getD t.title, pd.getD t.description, pst.getD t.status⟩
          s.tasks, s.next_id⟩) := by
  have hid2 : ¬ id < 1 := Nat.not_lt.mpr hid
  have htitle2 : pt.getD t.title ≠ "" := by
    cases pt with
    | unset => exact htitle
    | null => exact htitle
    | set w => exact ne_empty_of_strip_ne (hptw w rfl)
  have hvalid : (TaskPatch.mk pt pd pst).valid = true := by
    cases pt with
    | unset => rfl
    | null => rfl
    | set w =>
        simp [TaskPatch.valid, ne_empty_of_strip_ne (hptw w rfl)]
  have hmt : pt.merge t.title = some (pt.getD t.title) := by
    cases pt with
    | unset => rfl
    | null => exact absurd rfl hpt
    | set w => rfl
  have hmd : pd.merge t.description = some (pd.getD t.description) := by
    cases pd with
    | unset => rfl
    | null => exact absurd rfl hpd
    | set w => rfl
  have hms : pst.merge t.status = some (pst.getD t.status) := by
    cases pst with
    | unset => rfl
    | null => exact absurd rfl hpst
    | set w => rfl
  simp [patch_task, hvalid, hid2, hget, hmt, hmd, hms, mkTask,
    htid, htitle2]
  cases pt with
  | unset => rfl
  | null => exact absurd rfl hpt
  | set w => simp [hptw w rfl]

/-- C1: starting from the empty store, the ids returned by the
successful creates of any request sequence are strictly increasing in
order of issue, hence never reused, creates interleaved with deletes
included. -/
theorem created_ids_strictly_increasing (ops : List Op) :
    (createdIds Store.empty ops).Pairwise (· < ·) :=
  createdIds_pairwise Store.empty ops

/-- C2 counterexample: POST /tasks with title "" and valid description
and status on the empty store answers 422 (pydantic min_length=1 at
deserialization), not 400; the store is unchanged. -/
theorem create_empty_title_answers_422_not_400 :
    (create_task Store.empty "" "x" TaskStatus.pending).1 = Resp.unprocessable ∧
    (create_task Store.empty "" "x" TaskStatus.pending).1 ≠ Resp.badRequest ∧
    (create_task Store.empty "" "x" TaskStatus.pending).2 = Store.empty := by
  decide

/-- C2 (amended): a POST /tasks request whose body has title equal to
the empty string fails with HTTP status 422 (pydantic min_length
validation, which runs before the handler) and leaves the store
unchanged. -/
theorem create_empty_title_unprocessable (s : Store) (d : String)
    (st : TaskStatus) : create_task s "" d st = (Resp.unprocessable, s) := by
  simp [create_task]

/-- C10: a PATCH on an existing task whose body sets description
explicitly to null passes the title-only guard, merges the null into
the update, and the Task rebuild inside the handler fails as an
unhandled validation error rather than a 400 or 404 response; the
store is left unchanged. -/
theorem patch_null_description_unhandled_error :
    patch_task ⟨[(1, ⟨1, "Buy milk", "2%", TaskStatus.pending⟩)], 2⟩ 1
        ⟨.unset, .null, .unset⟩ =
      (Resp.internalError,
       ⟨[(1, ⟨1, "Buy milk", "2%", TaskStatus.pending⟩)], 2⟩) ∧
    (patch_task ⟨[(1, ⟨1, "Buy milk", "2%", TaskStatus.pending⟩)], 2⟩ 1
        ⟨.unset, .null, .unset⟩).1 ≠ Resp.badRequest ∧
    (patch_task ⟨[(1, ⟨1, "Buy milk", "2%", TaskStatus.pending⟩)], 2⟩ 1
        ⟨.unset, .null, .unset⟩).1 ≠ Resp.notFound := by
  decide

/-- C3: for a stored task, a patch supplying only a description answers
200 with a task keeping the stored id, title and status and carrying
the supplied description, and stores exactly that task; in general a
patch whose supplied fields are non-null values (supplied titles
stripping to nonempty) overwrites exactly the supplied fields and
keeps the absent ones unchanged. -/
theorem patch_overwrites_exactly_supplied_fields
    (s : Store) (id : Nat) (t : Task) (v : String)
    (pt pd : PatchField String) (pst : PatchField TaskStatus)
    (hget : dictGet id s.tasks = some t) (hid : 1 ≤ id)
    (htid : 1 ≤ t.id) (htitle : t.title ≠ "")
    (hpt : pt ≠ .null) (hpd : pd ≠ .null) (hpst : pst ≠ .null)
    (hptw : ∀ w, pt = .set w → strip w ≠ "") :
    patch_task s id ⟨.unset, .set v, .unset⟩ =
      (Resp.ok ⟨t.id, t.title, v, t.status⟩,
       ⟨dictSet id ⟨t.id, t.title, v, t.status⟩ s.tasks, s.next_id⟩) ∧
    patch_task s id ⟨pt, pd, pst⟩ =
      (Resp.ok ⟨t.id, pt.getD t.title, pd.getD t.description,
          pst.getD t.status⟩,
       ⟨dictSet id ⟨t.id, pt.getD t.title, pd.getD t.description,
          pst.getD t.status⟩ s.tasks, s.next_id⟩) := by
  constructor
  · exact patch_task_success hget hid htid htitle
      (fun h => PatchField.noConfusion h) (fun h => PatchField.noConfusion h)
      (fun h => PatchField.noConfusion h) (fun w hw => PatchField.noConfusion hw)
  · exact patch_task_success hget hid htid htitle hpt hpd hpst hptw

/-- C3 witness: the theorem applied to a one-task store, a
description-only patch and a title-and-status patch. -/
theorem patch_overwrites_exactly_supplied_fields_witness :
    patch_task ⟨[(1, ⟨1, "a", "b", TaskStatus.pending⟩)], 2⟩ 1
        ⟨.unset, .set "x", .unset⟩ =
      (Resp.ok ⟨1, "a", "x", TaskStatus.pending⟩,
       ⟨[(1, ⟨1, "a", "x", TaskStatus.pending⟩)], 2⟩) ∧
    patch_task ⟨[(1, ⟨1, "a", "b", TaskStatus.pending⟩)], 2⟩ 1
        ⟨.set " T ", .unset, .set TaskStatus.completed⟩ =
      (Resp.ok ⟨1, " T ", "b", TaskStatus.completed⟩,
       ⟨[(1, ⟨1, " T ", "b", TaskStatus.completed⟩)], 2⟩) :=
  patch_overwrites_exactly_supplied_fields
    ⟨[(1, ⟨1, "a", "b", TaskStatus.pending⟩)], 2⟩ 1
    ⟨1, "a", "b", TaskStatus.pending⟩ "x"
    (.set " T ") .unset (.set TaskStatus.completed)
    (by decide) (by decide) (by decide) (by decide)
    (by decide) (by decide) (by decide)
    (by intro w hw; cases hw; decide)

/-- C4: replacing a stored task with a valid payload answers 200 with
a task carrying the path id and exactly the supplied fields, stores
it, and an immediate get of the same id returns exactly the replaced
values. -/
theorem replace_then_get_returns_replaced_values
    (s : Store) (id : Nat) (t0 : Task) (title d : String) (st : TaskStatus)
    (hget : dictGet id s.tasks = some t0) (hid : 1 ≤ id)
    (htitle : strip title ≠ "") :
    update_task s id title d st =
      (Resp.ok ⟨id, title, d, st⟩,
       ⟨dictSet id ⟨id, title, d, st⟩ s.tasks, s.next_id⟩) ∧
    get_task (update_task s id title d st).2 id =
      (Resp.ok ⟨id, title, d, st⟩, (update_task s id title d st).2) := by
  have hne : title ≠ "" := ne_empty_of_strip_ne htitle
  have hid2 : ¬ id < 1 := Nat.not_lt.mpr hid
  have h1 : update_task s id title d st =
      (Resp.ok ⟨id, title, d, st⟩,
       ⟨dictSet id ⟨id, title, d, st⟩ s.tasks, s.next_id⟩) := by
    simp [update_task, hne, hid2, hget, htitle, mkTask, hid]
  refine ⟨h1, ?_⟩
  rw [h1]
  simp [get_task, hid2, dictGet_dictSet_self]

/-- C4 witness: the theorem applied to a one-task store and a concrete
replacement payload. -/
theorem replace_then_get_returns_replaced_values_witness :
    update_task ⟨[(1, ⟨1, "a", "b", TaskStatus.pending⟩)], 2⟩ 1
        "new" "nd" TaskStatus.completed =
      (Resp.ok ⟨1, "new", "nd", TaskStatus.completed⟩,
       ⟨[(1, ⟨1, "new", "nd", TaskStatus.completed⟩)], 2⟩) ∧
    get_task (update_task ⟨[(1, ⟨1, "a", "b", TaskStatus.pending⟩)], 2⟩ 1
        "new" "nd" TaskStatus.completed).2 1 =
      (Resp.ok ⟨1, "new", "nd", TaskStatus.completed⟩,
       (update_task ⟨[(1, ⟨1, "a", "b", TaskStatus.pending⟩)], 2⟩ 1
        "new" "nd" TaskStatus.completed).2) :=
  replace_then_get_returns_replaced_values
    ⟨[(1, ⟨1, "a", "b", TaskStatus.pending⟩)], 2⟩ 1
    ⟨1, "a", "b", TaskStatus.pending⟩ "new" "nd" TaskStatus.completed
    (by decide) (by decide) (by decide)

/-- C7: a whitespace-only title is answered with 400 by create, by
replace on a present id, and by patch-with-title-present on a present
id, while a title with surrounding whitespace around visible text is
accepted by create and stored exactly as supplied, untrimmed. -/
theorem whitespace_only_title_rejected
    (s : Store) (id : Nat) (t : Task) (d d2 d3 : String)
    (st st2 st3 : TaskStatus) (hn : 1 ≤ s.next_id)
    (hget : dictGet id s.tasks = some t) (hid : 1 ≤ id) :
    create_task s "   " d st = (Resp.badRequest, s) ∧
    create_task s "  valid  " d2 st2 =
      (Resp.created ⟨s.next_id, "  valid  ", d2, st2⟩,
       ⟨dictSet s.next_id ⟨s.next_id, "  valid  ", d2, st2⟩ s.tasks,
        s.next_id + 1⟩) ∧
    dictGet s.next_id (create_task s "  valid  " d2 st2).2.tasks =
      some ⟨s.next_id, "  valid  ", d2, st2⟩ ∧
    update_task s id "   " d3 st3 = (Resp.badRequest, s) ∧
    patch_task s id ⟨.set "   ", .unset, .unset⟩ = (Resp.badRequest, s) := by
  have hid2 : ¬ id < 1 := Nat.not_lt.mpr hid
  have hs1 : strip "   " = "" := by decide
  have hne : ("   " : String) ≠ "" := by decide
  have hv : strip "  valid  " ≠ "" := by decide
  have h2 := @create_task_success s "  valid  " d2 st2 hv hn
  refine ⟨by simp [create_task, hne, hs1], h2, ?_, ?_, ?_⟩
  · rw [h2]
    exact dictGet_dictSet_self _ _ _
  · simp [update_task, hne, hid2, hget, hs1]
  · simp [patch_task, TaskPatch.valid, hid2, hget, hs1, hne]

/-- C7 witness: the theorem applied to a one-task store with counter 2
and concrete payloads. -/
theorem whitespace_only_title_rejected_witness :
    create_task ⟨[(1, ⟨1, "a", "b", TaskStatus.pending⟩)], 2⟩ "   " "d"
        TaskStatus.pending =
      (Resp.badRequest, ⟨[(1, ⟨1, "a", "b", TaskStatus.pending⟩)], 2⟩) ∧
    create_task ⟨[(1, ⟨1, "a", "b", TaskStatus.pending⟩)], 2⟩ "  valid  "
        "e" TaskStatus.completed =
      (Resp.created ⟨2, "  valid  ", "e", TaskStatus.completed⟩,
       ⟨[(1, ⟨1, "a", "b", TaskStatus.pending⟩),
         (2, ⟨2, "  valid  ", "e", TaskStatus.completed⟩)], 3⟩) ∧
    dictGet 2 (create_task ⟨[(1, ⟨1, "a", "b", TaskStatus.pending⟩)], 2⟩
        "  valid  " "e" TaskStatus.completed).2.tasks =
      some ⟨2, "  valid  ", "e", TaskStatus.completed⟩ ∧
    update_task ⟨[(1, ⟨1, "a", "b", TaskStatus.pending⟩)], 2⟩ 1 "   " "f"
        TaskStatus.pending =
      (Resp.badRequest, ⟨[(1, ⟨1, "a", "b", TaskStatus.pending⟩)], 2⟩) ∧
    patch_task ⟨[(1, ⟨1, "a", "b", TaskStatus.pending⟩)], 2⟩ 1
        ⟨.set "   ", .unset, .unset⟩ =
      (Resp.badRequest, ⟨[(1, ⟨1, "a", "b", TaskStatus.pending⟩)], 2⟩) :=
  whitespace_only_title_rejected
    ⟨[(1, ⟨1, "a", "b", TaskStatus.pending⟩)], 2⟩ 1
    ⟨1, "a", "b", TaskStatus.pending⟩ "d" "e" "f"
    TaskStatus.pending TaskStatus.completed TaskStatus.pending
    (by decide) (by decide) (by decide)

/-- C8: every request the service fails with 400, 404 or 422 is atomic:
it leaves the store (the task mapping and the next-id counter) exactly
as it was before the request. -/
theorem failing_request_leaves_store_unchanged (s : Store) (op : Op)
    (h : isClientError (step s op).1 = true) : (step s op).2 = s := by
  cases op with
  | create title d st =>
      simp only [step] at h ⊢
      rcases hr : create_task s title d st with ⟨r, s2⟩
      rw [hr] at h
      unfold create_task at hr
      split at hr
      · cases hr; rfl
      · split at hr
        · cases hr; rfl
        · split at hr
          · cases hr
            simp [isClientError] at h
          · cases hr; rfl
  | get id =>
      simp only [step] at h ⊢
      rcases hr : get_task s id with ⟨r, s2⟩
      rw [hr] at h
      unfold get_task at hr
      split at hr
      · cases hr; rfl
      · split at hr
        · cases hr
          simp [isClientError] at h
        · cases hr; rfl
  | put id title d st =>
      simp only [step] at h ⊢
      rcases hr : update_task s id title d st with ⟨r, s2⟩
      rw [hr] at h
      unfold update_task at hr
      split at hr
      · cases hr; rfl
      · split at hr
        · cases hr; rfl
        · split at hr
          · cases hr; rfl
          · split at hr
            · cases hr; rfl
            · split at hr
              · cases hr
                simp [isClientError] at h
              · cases hr; rfl
  | patch id p =>
      simp only [step] at h ⊢
      rcases hr : patch_task s id p with ⟨r, s2⟩
      rw [hr] at h
      unfold patch_task at hr
      split at hr
      · cases hr; rfl
      · split at hr
        · cases hr; rfl
        · split at hr
          · cases hr; rfl
          · split at hr
            · cases hr; rfl
            · split at hr
              · cases hr
                simp [isClientError] at h
              · cases hr; rfl
  | delete id =>
      simp only [step] at h ⊢
      rcases hr : delete_task s id with ⟨r, s2⟩
      rw [hr] at h
      unfold delete_task at hr
      split at hr
      · cases hr; rfl
      · split at hr
        · cases hr; rfl
        · cases hr
          simp [isClientError] at h
  | list =>
      simp [step, list_tasks, isClientError] at h

/-- C8 witness: a GET of an absent id fails and leaves the empty store
unchanged. -/
theorem failing_request_leaves_store_unchanged_witness :
    isClientError (step Store.empty (Op.get 5)).1 = true ∧
    (step Store.empty (Op.get 5)).2 = Store.empty :=
  ⟨by decide,
   failing_request_leaves_store_unchanged Store.empty (Op.get 5) (by decide)⟩

/-- C9: in every store reachable from the empty store by any request
sequence, the task ids are unique and at least 1, and every stored
task has its id field equal to its key, a title nonempty after
stripping, and a status among pending and completed: no partial task
state is ever stored. -/
theorem reachable_store_tasks_valid (ops : List Op) :
    (((run Store.empty ops).tasks.map Prod.fst).Pairwise (· ≠ ·)) ∧
    ∀ q ∈ (run Store.empty ops).tasks,
      1 ≤ q.1 ∧ q.2.id = q.1 ∧ strip q.2.title ≠ "" ∧
      (q.2.status = TaskStatus.pending ∨ q.2.status = TaskStatus.completed) := by
  obtain ⟨hn, hp, he⟩ := inv_run inv_empty ops
  refine ⟨hp.imp Nat.ne_of_lt, ?_⟩
  intro q hq
  obtain ⟨h1, h2, h3, h4⟩ := he q hq
  refine ⟨h2, h3, h4, ?_⟩
  cases q.2.status
  · exact Or.inl rfl
  · exact Or.inr rfl

/-! Characterizations of the 404 outcome, toward the NotFound claim. -/

theorem get_task_notFound_iff {s : Store} {id : Nat} (hid : 1 ≤ id) :
    (get_task s id).1 = Resp.notFound ↔ dictGet id s.tasks = none := by
  have hid2 : ¬ id < 1 := Nat.not_lt.mpr hid
  cases hd : dictGet id s.tasks <;> simp [get_task, hid2, hd]

theorem update_task_notFound_iff {s : Store} {id : Nat}
    {title d : String} {st : TaskStatus} (hid : 1 ≤ id) (ht : title ≠ "") :
    (update_task s id title d st).1 = Resp.notFound ↔
      dictGet id s.tasks = none := by
  have hid2 : ¬ id < 1 := Nat.not_lt.mpr hid
  cases hd : dictGet id s.tasks with
  | none => simp [update_task, ht, hid2, hd]
  | some t =>
      have hne : (update_task s id title d st).1 ≠ Resp.notFound := by
        simp only [update_task, if_neg ht, if_neg hid2, hd]
        split
        · simp
        · split <;> simp
      simp [hne, hd]

theorem patch_task_notFound_iff {s : Store} {id : Nat} {p : TaskPatch}
    (hid : 1 ≤ id) (hp : p.valid = true) :
    (patch_task s id p).1 = Resp.notFound ↔ dictGet id s.tasks = none := by
  have hid2 : ¬ id < 1 := Nat.not_lt.mpr hid
  cases hd : dictGet id s.tasks with
  | none => simp [patch_task, hp, hid2, hd]
  | some t =>
      have hne : (patch_task s id p).1 ≠ Resp.notFound := by
        simp only [patch_task, hp, if_neg hid2, hd]
        simp only [not_true_eq_false, if_false]
        split
        · simp
        · split <;> simp
      simp [hne, hd]

theorem delete_task_notFound_iff {s : Store} {id : Nat} (hid : 1 ≤ id) :
    (delete_task s id).1 = Resp.notFound ↔ dictGet id s.tasks = none := by
  have hid2 : ¬ id < 1 := Nat.not_lt.mpr hid
  cases hd : dictGet id s.tasks <;> simp [delete_task, hid2, hd]

theorem delete_task_noContent {s : Store} {id : Nat}
    (h : (delete_task s id).1 = Resp.noContent) :
    (delete_task s id).2 = ⟨dictDel id s.tasks, s.next_id⟩ := by
  by_cases hc : id < 1
  · simp only [delete_task, if_pos hc] at h
    cases h
  · simp only [delete_task, if_neg hc] at h ⊢
    cases hd : dictGet id s.tasks with
    | none => rw [hd] at h; cases h
    | some t => rfl

/-- C5 counterexample: GET /tasks/0 on the empty store, where no task
with id 0 exists, answers 422 from path validation (ge=1) rather than
404, so absence of the id does not always yield 404 as stated. -/
theorem get_absent_id_not_always_404 :
    dictGet 0 Store.empty.tasks = none ∧
    (get_task Store.empty 0).1 ≠ Resp.notFound ∧
    (get_task Store.empty 0).1 = Resp.unprocessable := by
  decide

/-- C5 (amended): for requests whose path id passes validation (at
least 1) and whose body passes deserialization (nonempty title for
replace, a valid patch body) against a store with unique keys (true of
every reachable store), get, replace, patch and delete answer 404
exactly when no task with that id is in the store; and a get
immediately after a successful delete of the same id answers 404. -/
theorem not_found_iff_absent
    (s : Store) (id : Nat) (title d : String) (st : TaskStatus)
    (p : TaskPatch) (hid : 1 ≤ id) (ht : title ≠ "")
    (hp : p.valid = true) (hnd : (s.tasks.map Prod.fst).Nodup) :
    ((get_task s id).1 = Resp.notFound ↔ dictGet id s.tasks = none) ∧
    ((update_task s id title d st).1 = Resp.notFound ↔
      dictGet id s.tasks = none) ∧
    ((patch_task s id p).1 = Resp.notFound ↔ dictGet id s.tasks = none) ∧
    ((delete_task s id).1 = Resp.notFound ↔ dictGet id s.tasks = none) ∧
    ((delete_task s id).1 = Resp.noContent →
      (get_task (delete_task s id).2 id).1 = Resp.notFound) := by
  refine ⟨get_task_notFound_iff hid, update_task_notFound_iff hid ht,
    patch_task_notFound_iff hid hp, delete_task_notFound_iff hid, ?_⟩
  intro hdel
  rw [delete_task_noContent hdel]
  rw [get_task_notFound_iff hid]
  exact dictGet_dictDel_self hnd

/-- C5 witness: the amended theorem applied to a one-task store, an
absent id 2 and then the present id 1, with concrete valid bodies. -/
theorem not_found_iff_absent_witness :
    ((get_task ⟨[(1, ⟨1, "a", "b", TaskStatus.pending⟩)], 2⟩ 2).1 =
        Resp.notFound ↔
      dictGet 2 (⟨[(1, ⟨1, "a", "b", TaskStatus.pending⟩)], 2⟩ :
        Store).tasks = none) ∧
    ((update_task ⟨[(1, ⟨1, "a", "b", TaskStatus.pending⟩)], 2⟩ 2 "x" "y"
        TaskStatus.pending).1 = Resp.notFound ↔
      dictGet 2 (⟨[(1, ⟨1, "a", "b", TaskStatus.pending⟩)], 2⟩ :
        Store).tasks = none) ∧
    ((patch_task ⟨[(1, ⟨1, "a", "b", TaskStatus.pending⟩)], 2⟩ 2
        ⟨.unset, .unset, .unset⟩).1 = Resp.notFound ↔
      dictGet 2 (⟨[(1, ⟨1, "a", "b", TaskStatus.pending⟩)], 2⟩ :
        Store).tasks = none) ∧
    ((delete_task ⟨[(1, ⟨1, "a", "b", TaskStatus.pending⟩)], 2⟩ 2).1 =
        Resp.notFound ↔
      dictGet 2 (⟨[(1, ⟨1, "a", "b", TaskStatus.pending⟩)], 2⟩ :
        Store).tasks = none) ∧
    ((delete_task ⟨[(1, ⟨1, "a", "b", TaskStatus.pending⟩)], 2⟩ 2).1 =
        Resp.noContent →
      (get_task (delete_task ⟨[(1, ⟨1, "a", "b", TaskStatus.pending⟩)], 2⟩
          2).2 2).1 = Resp.notFound) :=
  not_found_iff_absent ⟨[(1, ⟨1, "a", "b", TaskStatus.pending⟩)], 2⟩ 2
    "x" "y" TaskStatus.pending ⟨.unset, .unset, .unset⟩
    (by decide) (by decide) (by decide) (by decide)

/-! Lemmas about the sort used by list_tasks. -/

theorem sortById_perm (l : List Task) : (sortById l).Perm l :=
  List.perm_insertionSort taskLe l

theorem sortById_sorted (l : List Task) :
    ((sortById l).map Task.id).Pairwise (· ≤ ·) := by
  rw [List.pairwise_map]
  exact List.sorted_insertionSort taskLe l

/-- Running only valid creates grows the dict by exactly one entry per
request. -/
theorem run_creates_length (ps : List (String × String × TaskStatus)) :
    ∀ (s : Store), StoreInv s → (∀ q ∈ ps, strip q.1 ≠ "") →
      (run s (ps.map fun q => Op.create q.1 q.2.1 q.2.2)).tasks.length =
        s.tasks.length + ps.length := by
  induction ps with
  | nil => intro s _ _; simp [run]
  | cons q ps ih =>
      intro s hs hv
      obtain ⟨ti, d, st⟩ := q
      simp only [List.map_cons, run]
      have hti : strip ti ≠ "" := hv (ti, d, st) (List.mem_cons_self _ _)
      have hsucc := @create_task_success s ti d st hti hs.1
      have hinv2 : StoreInv (create_task s ti d st).2 := inv_create hs ti d st
      rw [hsucc] at hinv2
      have hfresh : ∀ r ∈ s.tasks, r.1 ≠ s.next_id :=
        fun r hr => Nat.ne_of_lt (hs.2.2 r hr).1
      have hset := @dictSet_of_forall_ne s.next_id ⟨s.next_id, ti, d, st⟩
        s.tasks hfresh
      simp only [step, hsucc]
      rw [ih _ hinv2 (fun r hr => hv r (List.mem_cons_of_mem _ hr))]
      simp [hset]
      omega

/-- C6: list always succeeds without changing the store and returns a
permutation of all stored tasks with ids in ascending order (the empty
sequence for the empty store); after N valid creates and nothing else
starting from the empty store, it returns exactly N tasks in strictly
ascending id order. -/
theorem list_returns_all_tasks_ascending
    (s : Store) (ps : List (String × String × TaskStatus))
    (hps : ∀ q ∈ ps, strip q.1 ≠ "") :
    (∃ ts : List Task,
      list_tasks s = (Resp.okList ts, s) ∧
      ts.Perm (s.tasks.map Prod.snd) ∧
      (ts.map Task.id).Pairwise (· ≤ ·)) ∧
    list_tasks Store.empty = (Resp.okList [], Store.empty) ∧
    (∃ ts : List Task,
      (list_tasks (run Store.empty
          (ps.map fun q => Op.create q.1 q.2.1 q.2.2))).1 =
        Resp.okList ts ∧
      ts.length = ps.length ∧
      (ts.map Task.id).Pairwise (· < ·)) := by
  refine ⟨⟨sortById (s.tasks.map Prod.snd), rfl, sortById_perm _,
    sortById_sorted _⟩, rfl, ?_⟩
  set s2 := run Store.empty (ps.map fun q => Op.create q.1 q.2.1 q.2.2)
    with hs2
  obtain ⟨hn, hkeys, he⟩ := inv_run inv_empty
    (ps.map fun q => Op.create q.1 q.2.1 q.2.2)
  rw [← hs2] at hn hkeys he
  refine ⟨sortById (s2.tasks.map Prod.snd), rfl, ?_, ?_⟩
  · have hlen := run_creates_length ps Store.empty inv_empty hps
    rw [← hs2] at hlen
    calc (sortById (s2.tasks.map Prod.snd)).length
        = (s2.tasks.map Prod.snd).length := (sortById_perm _).length_eq
      _ = s2.tasks.length := List.length_map _ _
      _ = ps.length := by rw [hlen]; simp [Store.empty]
  · have hidmap : (s2.tasks.map Prod.snd).map Task.id =
        s2.tasks.map Prod.fst := by
      rw [List.map_map]
      exact List.map_congr_left fun q hq => (he q hq).2.2.1
    have hperm : ((sortById (s2.tasks.map Prod.snd)).map Task.id).Perm
        (s2.tasks.map Prod.fst) := by
      rw [← hidmap]
      exact (sortById_perm _).map Task.id
    have hnodup : ((sortById (s2.tasks.map Prod.snd)).map Task.id).Nodup :=
      hperm.nodup_iff.mpr (hkeys.imp Nat.ne_of_lt)
    have hle := sortById_sorted (s2.tasks.map Prod.snd)
    exact (hle.and hnodup).imp fun h => Nat.lt_of_le_of_ne h.1 h.2

/-- C6 witness: the theorem applied to a one-task store and two
concrete create payloads. -/
theorem list_returns_all_tasks_ascending_witness :
    (∃ ts : List Task,
      list_tasks ⟨[(1, ⟨1, "a", "b", TaskStatus.pending⟩)], 2⟩ =
        (Resp.okList ts, ⟨[(1, ⟨1, "a", "b", TaskStatus.pending⟩)], 2⟩) ∧
      ts.Perm ((⟨[(1, ⟨1, "a", "b", TaskStatus.pending⟩)], 2⟩ :
        Store).tasks.map Prod.snd) ∧
      (ts.map Task.id).Pairwise (· ≤ ·)) ∧
    list_tasks Store.empty = (Resp.okList [], Store.empty) ∧
    (∃ ts : List Task,
      (list_tasks (run Store.empty
          ([("t1", "d1", TaskStatus.pending),
            ("t2", "d2", TaskStatus.completed)].map
            fun q => Op.create q.1 q.2.1 q.2.2))).1 = Resp.okList ts ∧
      ts.length = [("t1", "d1", TaskStatus.pending),
        ("t2", "d2", TaskStatus.completed)].length ∧
      (ts.map Task.id).Pairwise (· < ·)) :=
  list_returns_all_tasks_ascending
    ⟨[(1, ⟨1, "a", "b", TaskStatus.pending⟩)], 2⟩
    [("t1", "d1", TaskStatus.pending), ("t2", "d2", TaskStatus.completed)]
    (by decide)

end TodoApi
